import Mathlib

/-!
Verification of the core pipeline of `src/services/network_bands.py`
(Service-Area-Tools).

The embedding follows the Python source:

* `service_bands` (the band differencer): regions produced by the geometric
  operations (`dissolve` = unary union, `difference` = set difference) are
  modelled extensionally as finite point sets (`Finset ℕ`); the pandas
  operations are modelled by their documented semantics
  (`Series.unique` keeps first occurrences in order of appearance,
  `sort_values(ascending=False)` sorts by the key column, `pd.concat([])`
  raises `ValueError`).
* `nx.single_source_dijkstra_path_length(graph, source, cutoff, weight)`
  (the reachability search of `service_areas`): networkx resolves a string
  weight to `data.get(weight, 1)` (missing attribute defaults to 1, it is
  never an error) and returns the map of shortest-path costs restricted to
  nodes whose cost is at most the cutoff; with non-negative weights the
  cutoff pruning does not change that result set.  Shortest-path costs are
  computed here by iterated edge relaxation (`|V|` rounds), which yields the
  same node-to-cost map over ℕ weights.  `nx.…` raises if the source is not
  a node of the graph.
* `nearest_node_and_name`: `ox.distance.nearest_nodes` is modelled as the
  first node minimising squared coordinate distance; the Python dict is an
  association list with overwrite-preserving-position update; the Faker
  draws of the anonymous-naming branch are made explicit as an oracle
  argument `fake : ℕ → String` (one draw per row), and the in-place column
  assignment `locations['Fake Name'] = fake_names` is modelled by returning
  the post-call state of the locations table next to the result.
* the hull step of `service_areas` calls `alphashape.alphashape(pts, α)`:
  for fewer than 4 points or `α ≤ 0` the library returns
  `MultiPoint(pts).convex_hull` (empty collection / point / line string for
  degenerate inputs); otherwise it Delaunay-triangulates the points, and
  `scipy.spatial.Delaunay` raises `QhullError` when the points are all
  collinear (in particular when fewer than 3 distinct points are supplied).

Python exceptions are modelled with `Except PyError`.
-/

/-- Error kinds: the generic Python/library exceptions the code can actually
raise, plus the structured error kinds the specification postulates
(`emptyInput`, `missingWeightAttribute`) so that claims about them can be
stated; the embedded code never produces the latter. -/
inductive PyError where
  | valueError
  | keyError
  | qhullError
  | nodeNotFound
  | emptyInput
  | missingWeightAttribute
  deriving DecidableEq

instance {ε α : Type} [DecidableEq ε] [DecidableEq α] : DecidableEq (Except ε α) := fun a b =>
  match a, b with
  | .ok x, .ok y =>
      if h : x = y then .isTrue (by rw [h]) else .isFalse (fun he => by cases he; exact h rfl)
  | .error x, .error y =>
      if h : x = y then .isTrue (by rw [h]) else .isFalse (fun he => by cases he; exact h rfl)
  | .ok _, .error _ => .isFalse (fun he => Except.noConfusion he)
  | .error _, .ok _ => .isFalse (fun he => Except.noConfusion he)

/-- Helper for `uniqueFirst`: drop elements already seen. -/
def uniqueFirstAux {α : Type} [DecidableEq α] (seen : List α) : List α → List α
  | [] => []
  | a :: rest =>
    if a ∈ seen then uniqueFirstAux seen rest else a :: uniqueFirstAux (a :: seen) rest

/-- Distinct values in order of first appearance: the semantics of
`pandas.Series.unique()`, used for `geodataframe[dissolve_cat].unique()`. -/
def uniqueFirst {α : Type} [DecidableEq α] (l : List α) : List α := uniqueFirstAux [] l

/-- Lookup in an association list with string keys (Python `dict`/`get`
access, also a row's column access `row[col]`). -/
def dictGet {β : Type} : List (String × β) → String → Option β
  | [], _ => none
  | p :: rest, k => if p.1 = k then some p.2 else dictGet rest k

/-- Key-membership test for an association list. -/
def dictHas {β : Type} : List (String × β) → String → Bool
  | [], _ => false
  | p :: rest, k => if p.1 = k then true else dictHas rest k

/-- Rewrite an entry whose key is `k`. -/
def updEntry {β : Type} (k : String) (v : β) (p : String × β) : String × β :=
  if p.1 = k then (k, v) else p

/-- Python `d[k] = v` on a dict: an existing key keeps its position and gets
the new value, a new key is appended. -/
def dictSet {β : Type} (d : List (String × β)) (k : String) (v : β) : List (String × β) :=
  if dictHas d k then d.map (updEntry k v) else d ++ [(k, v)]

/-! ## `service_bands` (band differencer), lines 223–292 -/

/-- One row of the `ServiceAreaTable` fed to `service_bands`: name, distance
and a polygon, the polygon modelled extensionally as a finite set of points. -/
structure SARecord where
  name : String
  distance : ℕ
  geometry : Finset ℕ
  deriving DecidableEq

/-- One row of the output of `service_bands`: the final GeoDataFrame is built
from exactly the geometry and the dissolve-category (distance) columns. -/
structure BandRecord where
  distance : ℕ
  geometry : Finset ℕ
  deriving DecidableEq

/-- Dissolving one distance group:
`geodataframe[geodataframe[dissolve_cat] == distance].dissolve(aggfunc='first')`
unions all geometries of the rows carrying that distance (with the default
`aggfunc='first'` the distance value of the dissolved row is the shared
distance itself). -/
def dissolveGroup (table : List SARecord) (d : ℕ) : Finset ℕ :=
  ((table.filter (fun r => decide (r.distance = d))).map (fun r => r.geometry)).foldl
    (fun a b => a ∪ b) ∅

/-- Descending comparison on the distance key, for
`sort_values(by=dissolve_cat, ascending=False)`. -/
def descPair (a b : ℕ × Finset ℕ) : Prop := b.1 ≤ a.1

instance : DecidableRel descPair := fun a b => Nat.decLe b.1 a.1

instance : IsTotal (ℕ × Finset ℕ) descPair := ⟨fun a b => le_total b.1 a.1⟩

instance : IsTrans (ℕ × Finset ℕ) descPair := ⟨fun _ _ _ h1 h2 => le_trans h2 h1⟩

/-- Sorting the dissolved rows by distance, largest first.  The dissolved
rows carry pairwise distinct distances, so any sorting algorithm computes
the same list as pandas' quicksort. -/
def sortByDistanceDesc (l : List (ℕ × Finset ℕ)) : List (ℕ × Finset ℕ) :=
  l.insertionSort descPair

/-- The difference loop of `service_bands`: for index `0 ≤ i ≤ n-2` the band
is `geometry[i].difference(geometry[i+1])`; the last (smallest) row is
appended unmodified. -/
def diffChain : List (ℕ × Finset ℕ) → List BandRecord
  | [] => []
  | [(d, g)] => [⟨d, g⟩]
  | (d1, g1) :: (d2, g2) :: rest => ⟨d1, g1 \ g2⟩ :: diffChain ((d2, g2) :: rest)

/-- `service_bands(geodataframe, dissolve_cat='distance', aggfunc='first')`:
per-distance dissolve in order of first appearance of the distance values,
concatenation (`pd.concat` raises `ValueError` when the list of dissolved
frames is empty, i.e. exactly when the input table is empty), descending
sort, difference chain. -/
def serviceBands (table : List SARecord) : Except PyError (List BandRecord) :=
  let dists := uniqueFirst (table.map (fun r => r.distance))
  let dissolved := dists.map (fun d => (d, dissolveGroup table d))
  if dissolved.isEmpty then Except.error PyError.valueError
  else Except.ok (diffChain (sortByDistanceDesc dissolved))

/-- State-passing view of `service_bands` for the frame claim: every pandas /
geopandas operation the function performs on its argument (column read,
`unique`, boolean-mask subset, `reset_index(drop=True)`, `dissolve`,
`pd.concat`, `sort_values`, `iloc` reads, `difference`, and the final
`GeoDataFrame` constructor) returns a fresh frame and leaves its input
untouched — none are in-place — so the input table is threaded through
unchanged next to the result. -/
def serviceBandsST (table : List SARecord) :
    Except PyError (List BandRecord) × List SARecord :=
  (serviceBands table, table)

/-! ## The graph and the reachability search of `service_areas`, line 195 -/

/-- A weighted directed multigraph: nodes are `(id, x, y)` (coordinates as
in `graph.nodes[n]['x']`, `graph.nodes[n]['y']`), edges are
`(u, v, attribute dict)`; parallel edges may repeat a `(u, v)` pair. -/
structure NetGraph where
  nodes : List (ℕ × ℤ × ℤ)
  edges : List (ℕ × ℕ × List (String × ℕ))
  deriving DecidableEq

def nodeIds (g : NetGraph) : List ℕ := g.nodes.map (fun n => n.1)

/-- networkx's weight function for a string weight name:
`data.get(weight, 1)` — an edge missing the attribute contributes the
default weight 1 (for parallel edges networkx takes the minimum, which the
per-edge relaxation below reproduces). -/
def edgeWeight (w : String) (attrs : List (String × ℕ)) : ℕ := (dictGet attrs w).getD 1

/-- One round of edge relaxation of the tentative-cost table `d` at node
`v`. -/
def relaxStep (g : NetGraph) (w : String) (d : ℕ → Option ℕ) (v : ℕ) : Option ℕ :=
  g.edges.foldl
    (fun acc e =>
      if e.2.1 = v then
        match d e.1 with
        | some du =>
          match acc with
          | some a => some (min a (du + edgeWeight w e.2.2))
          | none => some (du + edgeWeight w e.2.2)
        | none => acc
      else acc)
    (d v)

/-- `n` rounds of relaxation starting from `source ↦ 0`. -/
def distIter (g : NetGraph) (w : String) (s : ℕ) : ℕ → ℕ → Option ℕ
  | 0 => fun v => if v = s then some 0 else none
  | n + 1 => fun v => relaxStep g w (distIter g w s n) v

/-- Shortest-path cost from `s` to `v` (`|V|` relaxation rounds compute the
Dijkstra cost for the non-negative ℕ weights of the model). -/
def sdist (g : NetGraph) (w : String) (s v : ℕ) : Option ℕ :=
  distIter g w s g.nodes.length v

/-- The node-to-cost map returned by the cutoff-pruned Dijkstra search: all
nodes whose shortest-path cost is at most the cutoff, with their costs. -/
def dijkstraMap (g : NetGraph) (s cutoff : ℕ) (w : String) : List (ℕ × ℕ) :=
  (nodeIds g).filterMap (fun v =>
    match sdist g w s v with
    | some dv => if dv ≤ cutoff then some (v, dv) else none
    | none => none)

/-- `nx.single_source_dijkstra_path_length(graph, source, cutoff, weight)`:
raises `NodeNotFound` when the source is not in the graph, otherwise returns
the cost map. -/
def singleSourceDijkstraPathLength (g : NetGraph) (s cutoff : ℕ) (w : String) :
    Except PyError (List (ℕ × ℕ)) :=
  if s ∈ nodeIds g then Except.ok (dijkstraMap g s cutoff w)
  else Except.error PyError.nodeNotFound

/-- The reachable node ids, `list(subgraph.keys())` in `service_areas`. -/
def reachableNodes (g : NetGraph) (s cutoff : ℕ) (w : String) : List ℕ :=
  (dijkstraMap g s cutoff w).map (fun p => p.1)

/-! ## `nearest_node_and_name`, lines 94–152 -/

/-- Squared coordinate distance from the query point `(px, py)` to a node. -/
def sqTo (px py : ℤ) (n : ℕ × ℤ × ℤ) : ℤ := (n.2.1 - px) ^ 2 + (n.2.2 - py) ^ 2

/-- Keep the candidate only when strictly nearer (the first minimiser in
iteration order wins ties). -/
def nearerNode (px py : ℤ) (best cand : ℕ × ℤ × ℤ) : ℕ × ℤ × ℤ :=
  if sqTo px py cand < sqTo px py best then cand else best

/-- `ox.distance.nearest_nodes(graph, x, y)`: the node of the graph nearest
to the query point by coordinate distance; fails on a graph without nodes. -/
def nearestEntry (g : NetGraph) (px py : ℤ) : Option (ℕ × ℤ × ℤ) :=
  match g.nodes with
  | [] => none
  | n :: rest => some (rest.foldl (nearerNode px py) n)

def nearestId (g : NetGraph) (px py : ℤ) : Option ℕ := (nearestEntry g px py).map (fun n => n.1)

/-- One row of the locations GeoDataFrame: attribute columns (string-valued)
plus the point geometry's coordinates. -/
structure LocRow where
  attrs : List (String × String)
  x : ℤ
  y : ℤ
  deriving DecidableEq

def fakeNameCol : String := "Fake Name"

/-- The in-place column assignment `locations['Fake Name'] = fake_names`,
with `fake_names = [fake.city() for each row]` drawn from the oracle. -/
def addFakeName (locs : List LocRow) (fake : ℕ → String) : List LocRow :=
  locs.enum.map (fun p => LocRow.mk (dictSet p.2.attrs fakeNameCol (fake p.1)) p.2.x p.2.y)

/-- The main loop of `nearest_node_and_name`: for each row find the nearest
node, then store it in the dict under the row's name (stored twice in the
source when a name column is used — the second assignment is the
unconditional one after the if/else), or under `location_{index}` when the
column name is `None` or falsy (`""`).  A missing name column raises
`KeyError`. -/
def bindLoop (g : NetGraph) (lname : Option String) :
    List LocRow → ℕ → List (String × ℕ) → Except PyError (List (String × ℕ))
  | [], _, d => Except.ok d
  | r :: rest, i, d =>
    match nearestEntry g r.x r.y with
    | none => Except.error PyError.valueError
    | some nd =>
      match lname with
      | some c =>
        if c = "" then bindLoop g lname rest (i + 1) (dictSet d ("location_" ++ toString i) nd.1)
        else
          match dictGet r.attrs c with
          | none => Except.error PyError.keyError
          | some nm =>
            bindLoop g lname rest (i + 1) (dictSet (dictSet d nm nd.1) nm nd.1)
      | none => bindLoop g lname rest (i + 1) (dictSet d ("location_" ++ toString i) nd.1)

/-- `nearest_node_and_name(graph, locations, location_name, anon_name)`.
When `location_name is None and anon_name`, fake names are drawn and written
into the locations table (an in-place mutation of the argument, returned
here as the second component) and the name column is forced to
`'Fake Name'`. -/
def nearestNodeAndName (g : NetGraph) (locations : List LocRow)
    (location_name : Option String) (anon_name : Bool) (fake : ℕ → String) :
    Except PyError (List (String × ℕ) × List LocRow) :=
  let anonMode := location_name.isNone && anon_name
  let locs2 := if anonMode then addFakeName locations fake else locations
  let lname := if anonMode then some fakeNameCol else location_name
  (bindLoop g lname locs2 0 []).map (fun d2 => (d2, locs2))

/-- The binding the loop leaves for key `k`: the nearest node of the last
row whose name-column value is `k`, or the default when no row has it. -/
def lastResolved (g : NetGraph) (c : String) (rows : List LocRow) (dflt : Option ℕ)
    (k : String) : Option ℕ :=
  match (rows.filter (fun r => decide (dictGet r.attrs c = some k))).getLast? with
  | some r => nearestId g r.x r.y
  | none => dflt

/-! ## The hull step of `service_areas`, line 210 -/

/-- Shapely geometries as far as the hull step can produce them.  The
payloads of `hullPoly` (convex hull of at least 3 distinct non-collinear
points) and `alphaComplex` (alpha shape of a non-degenerate point set)
record the construction symbolically; no claim inspects them. -/
inductive Geom where
  | emptyGeom
  | point (p : ℤ × ℤ)
  | line (ps : List (ℤ × ℤ))
  | hullPoly (ps : List (ℤ × ℤ))
  | alphaComplex (ps : List (ℤ × ℤ)) (alpha : ℤ)
  deriving DecidableEq

/-- Zero-area degenerate geometries (empty, point, line string). -/
def Geom.degenerate : Geom → Bool
  | .emptyGeom => true
  | .point _ => true
  | .line _ => true
  | _ => false

/-- All points collinear (in particular: fewer than 3 distinct points) —
the inputs on which `scipy.spatial.Delaunay` raises `QhullError`. -/
def collinearPts (pts : List (ℤ × ℤ)) : Bool :=
  match uniqueFirst pts with
  | [] => true
  | [_] => true
  | p :: q :: _ =>
    pts.all (fun r => decide ((q.1 - p.1) * (r.2 - p.2) - (q.2 - p.2) * (r.1 - p.1) = 0))

/-- `MultiPoint(points).convex_hull`: empty collection for no points, the
point itself for one distinct point, a line string for two distinct (or
three-plus distinct collinear) points, a convex polygon otherwise. -/
def convex_hull (pts : List (ℤ × ℤ)) : Geom :=
  match uniqueFirst pts with
  | [] => Geom.emptyGeom
  | [p] => Geom.point p
  | [p, q] => Geom.line [p, q]
  | ds => if collinearPts pts then Geom.line ds else Geom.hullPoly ds

/-- `alphashape.alphashape(points, alpha)`: with fewer than 4 points or
`alpha ≤ 0` it returns the convex hull of the points; otherwise it Delaunay-
triangulates them, raising `QhullError` on an all-collinear input. -/
def alphashape (pts : List (ℤ × ℤ)) (alpha : ℤ) : Except PyError Geom :=
  if pts.length < 4 ∨ alpha ≤ 0 then Except.ok (convex_hull pts)
  else if collinearPts pts then Except.error PyError.qhullError
  else Except.ok (Geom.alphaComplex pts alpha)

/-! ## Concrete instances used by witnesses and counterexamples -/

/-- The specification's scenario graph: 5 nodes in a line, unit `length`
edges in both directions. -/
def lineG : NetGraph :=
  ⟨[(0, 0, 0), (1, 1, 0), (2, 2, 0), (3, 3, 0), (4, 4, 0)],
   [(0, 1, [("length", 1)]), (1, 0, [("length", 1)]),
    (1, 2, [("length", 1)]), (2, 1, [("length", 1)]),
    (2, 3, [("length", 1)]), (3, 2, [("length", 1)]),
    (3, 4, [("length", 1)]), (4, 3, [("length", 1)])]⟩

/-- Two nodes joined by an edge that lacks the `length` attribute. -/
def gMissingWeight : NetGraph := ⟨[(0, 0, 0), (1, 1, 0)], [(0, 1, [("speed", 7)])]⟩

/-- Two nodes far apart, no edges (nearest-node search only). -/
def gTwo : NetGraph := ⟨[(10, 0, 0), (11, 100, 0)], []⟩

/-- Two locations sharing the name `A`, nearest to different nodes. -/
def locsDup : List LocRow := [⟨[("name", "A")], 1, 0⟩, ⟨[("name", "A")], 99, 0⟩]

/-- A single-node graph. -/
def gOne : NetGraph := ⟨[(5, 0, 0)], []⟩

/-- A single location named `A`. -/
def locsOne : List LocRow := [⟨[("name", "A")], 3, 4⟩]

/-- A three-distance, one-location service-area table with nested regions. -/
def tblABC : List SARecord :=
  [⟨"A", 1000, {0}⟩, ⟨"A", 2000, {0, 1}⟩, ⟨"A", 3000, {0, 1, 2}⟩]

/-! ## Helper lemmas -/

theorem mem_uniqueFirstAux {α : Type} [DecidableEq α] (a : α) :
    ∀ (l : List α) (seen : List α), a ∈ uniqueFirstAux seen l ↔ a ∈ l ∧ a ∉ seen := by
  intro l
  induction l with
  | nil => intro seen; simp [uniqueFirstAux]
  | cons b rest ih =>
    intro seen
    by_cases hb : b ∈ seen
    · simp only [uniqueFirstAux, if_pos hb, ih, List.mem_cons]
      constructor
      · rintro ⟨h1, h2⟩; exact ⟨Or.inr h1, h2⟩
      · rintro ⟨h1 | h1, h2⟩
        · exact absurd (h1 ▸ hb) h2
        · exact ⟨h1, h2⟩
    · simp only [uniqueFirstAux, if_neg hb, List.mem_cons, ih]
      by_cases hab : a = b
      · subst hab; simp [hb]
      · simp [hab]

theorem nodup_uniqueFirstAux {α : Type} [DecidableEq α] :
    ∀ (l : List α) (seen : List α), (uniqueFirstAux seen l).Nodup := by
  intro l
  induction l with
  | nil => intro seen; simp [uniqueFirstAux]
  | cons b rest ih =>
    intro seen
    by_cases hb : b ∈ seen
    · simpa [uniqueFirstAux, if_pos hb] using ih seen
    · simp only [uniqueFirstAux, if_neg hb, List.nodup_cons]
      refine ⟨fun hc => ?_, ih (b :: seen)⟩
      exact ((mem_uniqueFirstAux b rest (b :: seen)).1 hc).2 (List.mem_cons_self b seen)

theorem mem_uniqueFirst {α : Type} [DecidableEq α] (a : α) (l : List α) :
    a ∈ uniqueFirst l ↔ a ∈ l := by
  simp [uniqueFirst, mem_uniqueFirstAux]

theorem nodup_uniqueFirst {α : Type} [DecidableEq α] (l : List α) :
    (uniqueFirst l).Nodup := nodup_uniqueFirstAux l []

/-! ## C10 — service_bands does not modify its input table -/

/-- C10: `service_bands` leaves its input table unchanged — every pandas /
geopandas operation it applies builds a fresh frame, none writes into the
argument, so the post-call state of the input equals the pre-call state and
the result is a pure function of the input value. -/
theorem C10_input_preserved (table : List SARecord) :
    (serviceBandsST table).2 = table ∧ (serviceBandsST table).1 = serviceBands table :=
  ⟨rfl, rfl⟩

/-! ## C5 — service_bands on an empty table -/

/-- C5 counterexample: on the empty table `service_bands` raises the generic
`ValueError` of `pd.concat([])`, which is not the structured `EmptyInput`
error the claim asserts. -/
theorem C5_empty_input_counterexample :
    serviceBands [] = Except.error PyError.valueError ∧
    PyError.valueError ≠ PyError.emptyInput :=
  ⟨rfl, by decide⟩

/-- C5 amended: on an empty input table `service_bands` fails, but with the
underlying library's generic `ValueError` (from concatenating zero dissolved
frames) — a generic crash, not a structured `EmptyInput` error value. -/
theorem C5_empty_input_amended :
    serviceBands [] = Except.error PyError.valueError := rfl

/-! ## C3 — monotonicity of the reachability search in the cutoff -/

/-- C3: for every graph (weights are non-negative by the ℕ model), every
source node of the graph, every weight attribute and every pair of cutoffs
`d1 < d2`, the search succeeds and the set of reachable nodes at cutoff `d1`
is a subset of the set at cutoff `d2`. -/
theorem C3_reachable_monotone (g : NetGraph) (s : ℕ) (w : String) (d1 d2 : ℕ)
    (hs : s ∈ nodeIds g) (h : d1 < d2) :
    singleSourceDijkstraPathLength g s d1 w = Except.ok (dijkstraMap g s d1 w) ∧
    singleSourceDijkstraPathLength g s d2 w = Except.ok (dijkstraMap g s d2 w) ∧
    reachableNodes g s d1 w ⊆ reachableNodes g s d2 w := by
  refine ⟨by simp [singleSourceDijkstraPathLength, hs],
    by simp [singleSourceDijkstraPathLength, hs], ?_⟩
  intro v hv
  simp only [reachableNodes, List.mem_map] at hv ⊢
  obtain ⟨p, hp, rfl⟩ := hv
  refine ⟨p, ?_, rfl⟩
  simp only [dijkstraMap, List.mem_filterMap] at hp ⊢
  obtain ⟨u, hu, hmatch⟩ := hp
  refine ⟨u, hu, ?_⟩
  cases hsd : sdist g w s u with
  | none =>
    simp only [hsd] at hmatch
    exact Option.noConfusion hmatch
  | some dv =>
    simp only [hsd] at hmatch ⊢
    by_cases hle : dv ≤ d1
    · rw [if_pos hle] at hmatch
      rw [if_pos (le_trans hle (le_of_lt h))]
      exact hmatch
    · rw [if_neg hle] at hmatch
      exact absurd hmatch (by simp)

/-- C3 witness: the scenario line graph, source 0, cutoffs 1 < 2. -/
theorem C3_reachable_monotone_witness :
    (0 ∈ nodeIds lineG ∧ 1 < 2) ∧
    (singleSourceDijkstraPathLength lineG 0 1 "length" =
        Except.ok (dijkstraMap lineG 0 1 "length") ∧
     singleSourceDijkstraPathLength lineG 0 2 "length" =
        Except.ok (dijkstraMap lineG 0 2 "length") ∧
     reachableNodes lineG 0 1 "length" ⊆ reachableNodes lineG 0 2 "length") :=
  ⟨⟨by decide, by decide⟩, C3_reachable_monotone lineG 0 "length" 1 2 (by decide) (by decide)⟩

/-! ## C6 — missing edge-weight attribute -/

/-- C6 counterexample: on a graph whose only (traversed) edge lacks the
requested `length` attribute, the search does not fail — the edge gets the
networkx default weight 1 and node 1 is reported reachable at cost 1. -/
theorem C6_missing_weight_counterexample :
    dictGet [("speed", (7 : ℕ))] "length" = none ∧
    singleSourceDijkstraPathLength gMissingWeight 0 5 "length" = Except.ok [(0, 0), (1, 1)] ∧
    singleSourceDijkstraPathLength gMissingWeight 0 5 "length" ≠
      Except.error PyError.missingWeightAttribute := by
  exact ⟨by decide, by decide, by decide⟩

/-- C6 amended: an edge lacking the requested weight attribute contributes
the networkx default weight 1; the reachability search never fails with a
missing-weight error (it succeeds whenever the source is a node of the
graph). -/
theorem C6_missing_weight_amended (g : NetGraph) (s cutoff : ℕ) (w : String)
    (attrs : List (String × ℕ)) (hmiss : dictGet attrs w = none) :
    edgeWeight w attrs = 1 ∧
    (s ∈ nodeIds g → singleSourceDijkstraPathLength g s cutoff w =
      Except.ok (dijkstraMap g s cutoff w)) ∧
    singleSourceDijkstraPathLength g s cutoff w ≠ Except.error PyError.missingWeightAttribute := by
  refine ⟨by simp [edgeWeight, hmiss],
    fun hs => by simp [singleSourceDijkstraPathLength, hs], ?_⟩
  unfold singleSourceDijkstraPathLength
  split
  · exact fun h => Except.noConfusion h
  · exact by decide

/-- C6 amended witness: the two-node graph with a `length`-less edge. -/
theorem C6_missing_weight_amended_witness :
    dictGet [("speed", (7 : ℕ))] "length" = none ∧
    (edgeWeight "length" [("speed", (7 : ℕ))] = 1 ∧
     (0 ∈ nodeIds gMissingWeight → singleSourceDijkstraPathLength gMissingWeight 0 5 "length" =
       Except.ok (dijkstraMap gMissingWeight 0 5 "length")) ∧
     singleSourceDijkstraPathLength gMissingWeight 0 5 "length" ≠
       Except.error PyError.missingWeightAttribute) :=
  ⟨by decide, C6_missing_weight_amended gMissingWeight 0 5 "length" [("speed", 7)] (by decide)⟩

/-! ## C4 — the hull step on degenerate point sets -/

theorem collinear_of_few (pts : List (ℤ × ℤ)) (hfew : (uniqueFirst pts).length < 3) :
    collinearPts pts = true := by
  unfold collinearPts
  rcases h : uniqueFirst pts with _ | ⟨p, _ | ⟨q, _ | ⟨r, rest⟩⟩⟩
  · rfl
  · rfl
  · rw [List.all_eq_true]
    intro x hx
    have hmem : x ∈ uniqueFirst pts := (mem_uniqueFirst x pts).2 hx
    rw [h] at hmem
    rw [decide_eq_true_eq]
    simp only [List.mem_cons, List.not_mem_nil, or_false] at hmem
    rcases hmem with rfl | rfl
    · ring
    · ring
  · rw [h] at hfew
    simp only [List.length_cons] at hfew
    omega

theorem convex_hull_degenerate (pts : List (ℤ × ℤ))
    (hfew : (uniqueFirst pts).length < 3) :
    (convex_hull pts).degenerate = true := by
  unfold convex_hull
  rcases h : uniqueFirst pts with _ | ⟨p, _ | ⟨q, _ | ⟨r, rest⟩⟩⟩
  · rfl
  · rfl
  · rfl
  · rw [h] at hfew
    simp only [List.length_cons] at hfew
    omega

/-- C4 counterexample: a single input point (fewer than 3 distinct points).
The hull step returns the point itself — a non-empty zero-dimensional
geometry, not an explicit empty/null polygon as the claim states. -/
theorem C4_hull_counterexample :
    alphashape [(0, 0)] 500 = Except.ok (Geom.point (0, 0)) ∧
    Geom.point (0, 0) ≠ Geom.emptyGeom :=
  ⟨by decide, by decide⟩

/-- C4 amended: on fewer than 3 distinct points the hull step returns the
convex hull of the point set — the empty geometry, a single point or a line
segment, i.e. a degenerate zero-area geometry rather than an empty polygon —
and does not raise, provided fewer than 4 points are supplied or the alpha
value is non-positive; with at least 4 points (still at most 2 distinct) and
a positive alpha, the underlying Delaunay triangulation raises a
`QhullError` instead of returning an empty polygon. -/
theorem C4_hull_degenerate_amended (pts : List (ℤ × ℤ)) (alpha : ℤ)
    (hfew : (uniqueFirst pts).length < 3) :
    (pts.length < 4 ∨ alpha ≤ 0 →
      alphashape pts alpha = Except.ok (convex_hull pts) ∧
      (convex_hull pts).degenerate = true) ∧
    (4 ≤ pts.length ∧ 0 < alpha →
      alphashape pts alpha = Except.error PyError.qhullError) := by
  constructor
  · intro hsmall
    refine ⟨?_, convex_hull_degenerate pts hfew⟩
    unfold alphashape
    rw [if_pos hsmall]
  · rintro ⟨hlen, halpha⟩
    unfold alphashape
    rw [if_neg (by omega), if_pos (collinear_of_few pts hfew)]

/-- C4 amended witness: one point, alpha 500. -/
theorem C4_hull_degenerate_amended_witness :
    (uniqueFirst [((0 : ℤ), (0 : ℤ))]).length < 3 ∧
    (([((0 : ℤ), (0 : ℤ))].length < 4 ∨ (500 : ℤ) ≤ 0 →
      alphashape [(0, 0)] 500 = Except.ok (convex_hull [(0, 0)]) ∧
      (convex_hull [(0, 0)]).degenerate = true) ∧
    (4 ≤ [((0 : ℤ), (0 : ℤ))].length ∧ (0 : ℤ) < 500 →
      alphashape [(0, 0)] 500 = Except.error PyError.qhullError)) :=
  ⟨by decide, C4_hull_degenerate_amended [(0, 0)] 500 (by decide)⟩

/-! ## C8 — side effects of nearest_node_and_name -/

/-- C8 counterexample: with `location_name=None` and `anon_name=True` the
function writes a `Fake Name` column into the caller's locations table —
the returned table state differs from the input. -/
theorem C8_mutation_counterexample :
    nearestNodeAndName gOne locsOne none true (fun _ => "X") =
      Except.ok ([("X", 5)], [⟨[("name", "A"), ("Fake Name", "X")], 3, 4⟩]) ∧
    ([⟨[("name", "A"), ("Fake Name", "X")], 3, 4⟩] : List LocRow) ≠ locsOne :=
  ⟨by decide, by decide⟩

/-- C8 amended: `nearest_node_and_name` never mutates the graph, and it
leaves the locations table unchanged whenever a name column is supplied or
anonymous naming is off; only the `location_name=None, anon_name=True`
combination mutates the locations table (by adding the `Fake Name` column). -/
theorem C8_no_mutation_amended (g : NetGraph) (locs : List LocRow)
    (location_name : Option String) (anon_name : Bool) (fake : ℕ → String)
    (h : location_name ≠ none ∨ anon_name = false) :
    ∀ d t, nearestNodeAndName g locs location_name anon_name fake = Except.ok (d, t) →
      t = locs := by
  intro d t heq
  have hmode : (location_name.isNone && anon_name) = false := by
    rcases h with h1 | h1
    · cases location_name with
      | none => exact absurd rfl h1
      | some c => simp
    · simp [h1]
  simp only [nearestNodeAndName, hmode, Bool.false_eq_true, if_false] at heq
  cases hb : bindLoop g location_name locs 0 [] with
  | error e =>
    rw [hb] at heq
    exact Except.noConfusion heq
  | ok d2 =>
    rw [hb] at heq
    simp only [Except.map, Except.ok.injEq] at heq
    exact (congrArg Prod.snd heq).symm

/-- C8 amended witness: a named call leaves the table untouched (and, for
non-vacuity, the concrete call's returned table state is the input). -/
theorem C8_no_mutation_amended_witness :
    ((some "name" : Option String) ≠ none ∨ false = false) ∧
    nearestNodeAndName gTwo locsDup (some "name") false (fun _ => "Z") =
      Except.ok ([("A", 11)], locsDup) ∧
    (∀ d t, nearestNodeAndName gTwo locsDup (some "name") false (fun _ => "Z") =
        Except.ok (d, t) → t = locsDup) :=
  ⟨Or.inl (fun hc => Option.noConfusion hc), by decide,
   C8_no_mutation_amended gTwo locsDup (some "name") false (fun _ => "Z")
     (Or.inl (fun hc => Option.noConfusion hc))⟩

/-! ## C9 — idempotence of resolve -/

/-- C9 counterexample: with `location_name=None, anon_name=True` the keys of
the returned mapping are the fresh Faker draws of each call; two successive
calls (the second seeing the table state the first left behind) with
distinct draws return different mappings. -/
theorem C9_idempotence_counterexample :
    nearestNodeAndName gOne locsOne none true (fun _ => "X") =
      Except.ok ([("X", 5)], [⟨[("name", "A"), ("Fake Name", "X")], 3, 4⟩]) ∧
    nearestNodeAndName gOne [⟨[("name", "A"), ("Fake Name", "X")], 3, 4⟩] none true
        (fun _ => "Y") =
      Except.ok ([("Y", 5)], [⟨[("name", "A"), ("Fake Name", "Y")], 3, 4⟩]) ∧
    ([("X", 5)] : List (String × ℕ)) ≠ [("Y", 5)] :=
  ⟨by decide, by decide, by decide⟩

/-- C9 amended: resolving the same location set against the same unchanged
graph twice yields identical mappings whenever a name column is supplied or
anonymous naming is off — the result then does not depend on the Faker
oracle at all; only the `location_name=None, anon_name=True` combination is
not idempotent (its keys are the random draws of each call). -/
theorem C9_idempotence_amended (g : NetGraph) (locs : List LocRow)
    (location_name : Option String) (anon_name : Bool) (fk1 fk2 : ℕ → String)
    (h : location_name ≠ none ∨ anon_name = false) :
    nearestNodeAndName g locs location_name anon_name fk1 =
      nearestNodeAndName g locs location_name anon_name fk2 := by
  have hmode : (location_name.isNone && anon_name) = false := by
    rcases h with h1 | h1
    · cases location_name with
      | none => exact absurd rfl h1
      | some c => simp
    · simp [h1]
  simp only [nearestNodeAndName, hmode, Bool.false_eq_true, if_false]

/-- C9 amended witness: a named call is oracle-independent. -/
theorem C9_idempotence_amended_witness :
    ((some "name" : Option String) ≠ none ∨ false = false) ∧
    nearestNodeAndName gTwo locsDup (some "name") false (fun _ => "Z") =
      nearestNodeAndName gTwo locsDup (some "name") false (fun _ => "W") :=
  ⟨Or.inl (fun hc => Option.noConfusion hc),
   C9_idempotence_amended gTwo locsDup (some "name") false (fun _ => "Z") (fun _ => "W")
     (Or.inl (fun hc => Option.noConfusion hc))⟩

/-! ## C1 and C2 — the difference chain of service_bands -/

theorem dissolved_perm_target (table : List SARecord) (d1 d2 d3 : ℕ)
    (h12 : d1 < d2) (h23 : d2 < d3)
    (hd : (table.map (fun r => r.distance)).toFinset = {d1, d2, d3}) :
    ((uniqueFirst (table.map (fun r => r.distance))).map
        (fun d => (d, dissolveGroup table d))).Perm
      [(d3, dissolveGroup table d3), (d2, dissolveGroup table d2),
       (d1, dissolveGroup table d1)] := by
  have hmem : ∀ a, a ∈ uniqueFirst (table.map (fun r => r.distance)) ↔
      a = d1 ∨ a = d2 ∨ a = d3 := by
    intro a
    rw [mem_uniqueFirst, ← List.mem_toFinset, hd]
    simp
  have hnd : (uniqueFirst (table.map (fun r => r.distance))).Nodup :=
    nodup_uniqueFirst _
  have hinj : Function.Injective (fun d => (d, dissolveGroup table d)) := by
    intro a b hab
    exact congrArg Prod.fst hab
  have hdisnd : ((uniqueFirst (table.map (fun r => r.distance))).map
      (fun d => (d, dissolveGroup table d))).Nodup := hnd.map hinj
  have htargetnd : ([(d3, dissolveGroup table d3), (d2, dissolveGroup table d2),
      (d1, dissolveGroup table d1)]).Nodup := by
    refine List.Nodup.of_map Prod.fst ?_
    simp only [List.map_cons, List.map_nil]
    simp only [List.nodup_cons, List.mem_cons, List.mem_singleton, List.not_mem_nil,
      or_false, List.nodup_nil, and_true]
    exact ⟨by omega, by omega, not_false⟩
  apply List.perm_of_nodup_nodup_toFinset_eq hdisnd htargetnd
  apply Finset.ext
  intro x
  simp only [List.mem_toFinset, List.mem_map, List.mem_cons, List.not_mem_nil, or_false]
  constructor
  · rintro ⟨d, hdl, rfl⟩
    rcases (hmem d).1 hdl with rfl | rfl | rfl
    · exact Or.inr (Or.inr rfl)
    · exact Or.inr (Or.inl rfl)
    · exact Or.inl rfl
  · rintro (rfl | rfl | rfl)
    · exact ⟨d3, (hmem d3).2 (Or.inr (Or.inr rfl)), rfl⟩
    · exact ⟨d2, (hmem d2).2 (Or.inr (Or.inl rfl)), rfl⟩
    · exact ⟨d1, (hmem d1).2 (Or.inl rfl), rfl⟩

theorem sortDesc_eq_target (table : List SARecord) (d1 d2 d3 : ℕ)
    (h12 : d1 < d2) (h23 : d2 < d3)
    (hd : (table.map (fun r => r.distance)).toFinset = {d1, d2, d3}) :
    sortByDistanceDesc ((uniqueFirst (table.map (fun r => r.distance))).map
        (fun d => (d, dissolveGroup table d))) =
      [(d3, dissolveGroup table d3), (d2, dissolveGroup table d2),
       (d1, dissolveGroup table d1)] := by
  have hperm0 : (sortByDistanceDesc ((uniqueFirst (table.map (fun r => r.distance))).map
      (fun d => (d, dissolveGroup table d)))).Perm
      ((uniqueFirst (table.map (fun r => r.distance))).map
        (fun d => (d, dissolveGroup table d))) :=
    List.perm_insertionSort descPair _
  have hperm := hperm0.trans (dissolved_perm_target table d1 d2 d3 h12 h23 hd)
  haveI : IsAntisymm (ℕ × Finset ℕ) (fun a b => b.1 < a.1) :=
    ⟨fun a b hab hba => absurd (lt_trans hab hba) (lt_irrefl _)⟩
  apply List.eq_of_perm_of_sorted (r := fun a b => b.1 < a.1) hperm
  · -- the sorted output is strictly descending: weakly descending by the sort,
    -- with pairwise-distinct keys because the dissolved rows have nodup keys
    have hsorted : (sortByDistanceDesc ((uniqueFirst (table.map (fun r => r.distance))).map
        (fun d => (d, dissolveGroup table d)))).Sorted descPair :=
      List.sorted_insertionSort descPair _
    have hkeys : ((sortByDistanceDesc ((uniqueFirst (table.map (fun r => r.distance))).map
        (fun d => (d, dissolveGroup table d)))).map Prod.fst).Nodup := by
      have h1 : (((uniqueFirst (table.map (fun r => r.distance))).map
          (fun d => (d, dissolveGroup table d))).map Prod.fst).Nodup := by
        rw [List.map_map]
        have hid : (Prod.fst ∘ fun d => (d, dissolveGroup table d)) = id := rfl
        rw [hid, List.map_id]
        exact nodup_uniqueFirst (table.map (fun r => r.distance))
      exact ((hperm0.map Prod.fst).nodup_iff).2 h1
    have hne : (sortByDistanceDesc ((uniqueFirst (table.map (fun r => r.distance))).map
        (fun d => (d, dissolveGroup table d)))).Pairwise (fun a b => a.1 ≠ b.1) := by
      rw [← List.pairwise_map (f := Prod.fst)]
      exact hkeys
    exact (hsorted.and hne).imp (fun hab => lt_of_le_of_ne hab.1 (fun hc => hab.2 hc.symm))
  · simp only [List.sorted_cons, List.mem_cons, List.mem_singleton, List.not_mem_nil,
      or_false, List.sorted_nil, and_true, List.sorted_singleton]
    refine ⟨?_, ?_, ?_⟩
    · rintro b (rfl | rfl)
      · exact h23
      · exact lt_trans h12 h23
    · rintro b rfl
      exact h12
    · rintro b hb
      exact hb.elim

theorem serviceBands_three (table : List SARecord) (d1 d2 d3 : ℕ)
    (h12 : d1 < d2) (h23 : d2 < d3)
    (hd : (table.map (fun r => r.distance)).toFinset = {d1, d2, d3}) :
    serviceBands table = Except.ok
      [⟨d3, dissolveGroup table d3 \ dissolveGroup table d2⟩,
       ⟨d2, dissolveGroup table d2 \ dissolveGroup table d1⟩,
       ⟨d1, dissolveGroup table d1⟩] := by
  have hd1 : d1 ∈ uniqueFirst (table.map (fun r => r.distance)) := by
    rw [mem_uniqueFirst, ← List.mem_toFinset, hd]
    simp
  simp only [serviceBands]
  rw [if_neg ?hne, sortDesc_eq_target table d1 d2 d3 h12 h23 hd]
  case hne =>
    intro hc
    rw [List.isEmpty_iff, List.map_eq_nil_iff] at hc
    rw [hc] at hd1
    exact List.not_mem_nil d1 hd1
  rfl

/-- C1: on any input table whose distance column contains exactly the three
distinct values 1000, 2000 and 3000, `service_bands` returns exactly three
band records with distances in descending order [3000, 2000, 1000]; the band
for 3000 is the dissolved 3000-region minus the dissolved 2000-region, the
band for 2000 is the dissolved 2000-region minus the dissolved 1000-region,
and the band for the smallest distance 1000 is its dissolved region
unmodified. -/
theorem C1_band_difference_chain (table : List SARecord)
    (hd : (table.map (fun r => r.distance)).toFinset = {1000, 2000, 3000}) :
    serviceBands table = Except.ok
      [⟨3000, dissolveGroup table 3000 \ dissolveGroup table 2000⟩,
       ⟨2000, dissolveGroup table 2000 \ dissolveGroup table 1000⟩,
       ⟨1000, dissolveGroup table 1000⟩] :=
  serviceBands_three table 1000 2000 3000 (by omega) (by omega) hd

/-- C1 witness: a three-row table for location `A` with distances
1000/2000/3000. -/
theorem C1_band_difference_chain_witness :
    (tblABC.map (fun r => r.distance)).toFinset = {1000, 2000, 3000} ∧
    serviceBands tblABC = Except.ok
      [⟨3000, dissolveGroup tblABC 3000 \ dissolveGroup tblABC 2000⟩,
       ⟨2000, dissolveGroup tblABC 2000 \ dissolveGroup tblABC 1000⟩,
       ⟨1000, dissolveGroup tblABC 1000⟩] :=
  ⟨by decide, C1_band_difference_chain tblABC (by decide)⟩

/-- C2: for a table with exactly three distinct distances `d1 < d2 < d3`
whose dissolved regions shrink monotonically as the distance decreases, the
returned band records are pairwise non-overlapping and the union of their
geometries equals the union of the three dissolved regions. -/
theorem C2_band_partition (table : List SARecord) (d1 d2 d3 : ℕ)
    (h12 : d1 < d2) (h23 : d2 < d3)
    (hd : (table.map (fun r => r.distance)).toFinset = {d1, d2, d3})
    (hm1 : dissolveGroup table d1 ⊆ dissolveGroup table d2)
    (hm2 : dissolveGroup table d2 ⊆ dissolveGroup table d3) :
    ∃ bands, serviceBands table = Except.ok bands ∧
      List.Pairwise (fun a b => a.geometry ∩ b.geometry = ∅) bands ∧
      bands.foldl (fun acc b => acc ∪ b.geometry) ∅ =
        dissolveGroup table d1 ∪ dissolveGroup table d2 ∪ dissolveGroup table d3 := by
  refine ⟨_, serviceBands_three table d1 d2 d3 h12 h23 hd, ?_, ?_⟩
  · refine List.Pairwise.cons ?_ (List.Pairwise.cons ?_ (List.pairwise_singleton _ _))
    · intro b hb
      simp only [List.mem_cons, List.mem_singleton, List.not_mem_nil, or_false] at hb
      rcases hb with rfl | rfl
      · refine Finset.eq_empty_iff_forall_not_mem.2 (fun x hx => ?_)
        simp only [Finset.mem_inter, Finset.mem_sdiff] at hx
        exact hx.1.2 hx.2.1
      · refine Finset.eq_empty_iff_forall_not_mem.2 (fun x hx => ?_)
        simp only [Finset.mem_inter, Finset.mem_sdiff] at hx
        exact hx.1.2 (hm1 hx.2)
    · intro b hb
      simp only [List.mem_singleton, List.mem_cons, List.not_mem_nil, or_false] at hb
      subst hb
      refine Finset.eq_empty_iff_forall_not_mem.2 (fun x hx => ?_)
      simp only [Finset.mem_inter, Finset.mem_sdiff] at hx
      exact hx.1.2 hx.2
  · simp only [List.foldl_cons, List.foldl_nil]
    ext x
    simp only [Finset.mem_union, Finset.mem_sdiff, Finset.not_mem_empty, false_or]
    tauto

/-- C2 witness: the nested three-distance table. -/
theorem C2_band_partition_witness :
    (1000 < 2000 ∧ 2000 < 3000 ∧
     (tblABC.map (fun r => r.distance)).toFinset = {1000, 2000, 3000} ∧
     dissolveGroup tblABC 1000 ⊆ dissolveGroup tblABC 2000 ∧
     dissolveGroup tblABC 2000 ⊆ dissolveGroup tblABC 3000) ∧
    (∃ bands, serviceBands tblABC = Except.ok bands ∧
      List.Pairwise (fun a b => a.geometry ∩ b.geometry = ∅) bands ∧
      bands.foldl (fun acc b => acc ∪ b.geometry) ∅ =
        dissolveGroup tblABC 1000 ∪ dissolveGroup tblABC 2000 ∪ dissolveGroup tblABC 3000) :=
  ⟨⟨by omega, by omega, by decide, by decide, by decide⟩,
   C2_band_partition tblABC 1000 2000 3000 (by omega) (by omega) (by decide)
     (by decide) (by decide)⟩

/-! ## C7 — nearest_node_and_name bindings -/

theorem dictGet_map_updEntry_self {β : Type} (k : String) (v : β) :
    ∀ d : List (String × β), dictHas d k = true →
      dictGet (d.map (updEntry k v)) k = some v := by
  intro d
  induction d with
  | nil => intro h; exact absurd h (by simp [dictHas])
  | cons p rest ih =>
    intro h
    by_cases hp : p.1 = k
    · simp [dictGet, updEntry, hp]
    · have h2 : dictHas rest k = true := by simpa [dictHas, hp] using h
      simpa [dictGet, updEntry, hp] using ih h2

theorem dictGet_map_updEntry_ne {β : Type} (k k' : String) (v : β) (hkk : k' ≠ k) :
    ∀ d : List (String × β), dictGet (d.map (updEntry k v)) k' = dictGet d k' := by
  intro d
  induction d with
  | nil => simp [dictGet]
  | cons p rest ih =>
    by_cases hp : p.1 = k
    · have hkne : ¬(k = k') := fun hc => hkk hc.symm
      have hpne : ¬(p.1 = k') := by rw [hp]; exact hkne
      simp only [List.map_cons, updEntry, if_pos hp, dictGet, if_neg hkne, if_neg hpne]
      exact ih
    · simp only [List.map_cons, updEntry, if_neg hp, dictGet]
      by_cases hp' : p.1 = k'
      · rw [if_pos hp', if_pos hp']
      · rw [if_neg hp', if_neg hp']
        exact ih

theorem dictGet_append {β : Type} (k : String) :
    ∀ d l : List (String × β), dictGet (d ++ l) k = (dictGet d k).or (dictGet l k) := by
  intro d l
  induction d with
  | nil => simp [dictGet, Option.or]
  | cons p rest ih =>
    by_cases hp : p.1 = k
    · simp [dictGet, hp, Option.or]
    · simpa [dictGet, hp] using ih

theorem dictGet_eq_none_of_not_has {β : Type} (k : String) :
    ∀ d : List (String × β), dictHas d k = false → dictGet d k = none := by
  intro d
  induction d with
  | nil => intro _; rfl
  | cons p rest ih =>
    intro h
    by_cases hp : p.1 = k
    · simp [dictHas, hp] at h
    · simp only [dictGet, if_neg hp]
      exact ih (by simpa [dictHas, hp] using h)

theorem dictGet_dictSet {β : Type} (d : List (String × β)) (k k' : String) (v : β) :
    dictGet (dictSet d k v) k' = if k' = k then some v else dictGet d k' := by
  unfold dictSet
  by_cases hhas : dictHas d k
  · rw [if_pos hhas]
    by_cases hk : k' = k
    · subst hk
      rw [if_pos rfl]
      exact dictGet_map_updEntry_self _ v d hhas
    · rw [if_neg hk]
      exact dictGet_map_updEntry_ne k k' v hk d
  · rw [if_neg hhas, dictGet_append]
    by_cases hk : k' = k
    · subst hk
      rw [dictGet_eq_none_of_not_has _ d (by simpa using hhas)]
      simp [dictGet, Option.or]
    · have hkk : ¬(k = k') := fun hc => hk hc.symm
      have h1 : dictGet [(k, v)] k' = none := by simp [dictGet, if_neg hkk]
      rw [if_neg hk, h1]
      cases hdk : dictGet d k' <;> rfl

theorem nearerNode_mem (px py : ℤ) (b c : ℕ × ℤ × ℤ) :
    nearerNode px py b c = b ∨ nearerNode px py b c = c := by
  unfold nearerNode
  split
  · exact Or.inr rfl
  · exact Or.inl rfl

theorem nearerNode_le_left (px py : ℤ) (b c : ℕ × ℤ × ℤ) :
    sqTo px py (nearerNode px py b c) ≤ sqTo px py b := by
  unfold nearerNode
  split
  · exact le_of_lt (by assumption)
  · exact le_refl _

theorem nearerNode_le_right (px py : ℤ) (b c : ℕ × ℤ × ℤ) :
    sqTo px py (nearerNode px py b c) ≤ sqTo px py c := by
  unfold nearerNode
  split
  · exact le_refl _
  · exact not_lt.1 (by assumption)

theorem foldl_nearerNode_spec (px py : ℤ) :
    ∀ (l : List (ℕ × ℤ × ℤ)) (b : ℕ × ℤ × ℤ),
      l.foldl (nearerNode px py) b ∈ b :: l ∧
      ∀ m ∈ b :: l, sqTo px py (l.foldl (nearerNode px py) b) ≤ sqTo px py m := by
  intro l
  induction l with
  | nil =>
    intro b
    refine ⟨List.mem_cons_self _ _, ?_⟩
    intro m hm
    simp only [List.foldl_nil]
    rcases List.mem_cons.1 hm with rfl | hm2
    · exact le_refl _
    · exact absurd hm2 (List.not_mem_nil m)
  | cons c t ih =>
    intro b
    simp only [List.foldl_cons]
    obtain ⟨hmem, hmin⟩ := ih (nearerNode px py b c)
    constructor
    · rcases List.mem_cons.1 hmem with h | h
      · rcases nearerNode_mem px py b c with hb | hc
        · rw [h, hb]; exact List.mem_cons_self _ _
        · rw [h, hc]; exact List.mem_cons_of_mem _ (List.mem_cons_self _ _)
      · exact List.mem_cons_of_mem _ (List.mem_cons_of_mem _ h)
    · intro m hm
      rcases List.mem_cons.1 hm with rfl | hm2
      · exact le_trans (hmin _ (List.mem_cons_self _ _)) (nearerNode_le_left px py m c)
      · rcases List.mem_cons.1 hm2 with rfl | hm3
        · exact le_trans (hmin _ (List.mem_cons_self _ _)) (nearerNode_le_right px py b m)
        · exact hmin m (List.mem_cons_of_mem _ hm3)

theorem nearestEntry_spec (g : NetGraph) (px py : ℤ) (hg : g.nodes ≠ []) :
    ∃ nd, nearestEntry g px py = some nd ∧ nd ∈ g.nodes ∧
      ∀ m ∈ g.nodes, sqTo px py nd ≤ sqTo px py m := by
  cases hn : g.nodes with
  | nil => exact absurd hn hg
  | cons n rest =>
    obtain ⟨hmem, hmin⟩ := foldl_nearerNode_spec px py rest n
    refine ⟨rest.foldl (nearerNode px py) n, ?_, ?_, ?_⟩
    · unfold nearestEntry
      rw [hn]
    · exact hmem
    · exact hmin

theorem bindLoop_named (g : NetGraph) (c : String) (hg : g.nodes ≠ []) (hc : c ≠ "") :
    ∀ (rows : List LocRow), (∀ r ∈ rows, (dictGet r.attrs c).isSome) →
      ∀ (i : ℕ) (d : List (String × ℕ)),
        ∃ out, bindLoop g (some c) rows i d = Except.ok out ∧
          ∀ k, dictGet out k = lastResolved g c rows (dictGet d k) k := by
  intro rows
  induction rows with
  | nil =>
    intro _ i d
    refine ⟨d, rfl, fun k => ?_⟩
    simp [lastResolved]
  | cons r rest ih =>
    intro hattrs i d
    obtain ⟨nd, hnd, hndmem, hndmin⟩ := nearestEntry_spec g r.x r.y hg
    obtain ⟨nm, hnm⟩ := Option.isSome_iff_exists.1 (hattrs r (List.mem_cons_self r rest))
    have hstep : bindLoop g (some c) (r :: rest) i d =
        bindLoop g (some c) rest (i + 1) (dictSet (dictSet d nm nd.1) nm nd.1) := by
      simp [bindLoop, hnd, hc, hnm]
    obtain ⟨out, hout, hlook⟩ :=
      ih (fun r' hr' => hattrs r' (List.mem_cons_of_mem r hr')) (i + 1)
        (dictSet (dictSet d nm nd.1) nm nd.1)
    refine ⟨out, hstep.trans hout, fun k => ?_⟩
    rw [hlook k]
    have hdd : dictGet (dictSet (dictSet d nm nd.1) nm nd.1) k =
        if k = nm then some nd.1 else dictGet d k := by
      rw [dictGet_dictSet, dictGet_dictSet]
      by_cases hk : k = nm
      · simp [hk]
      · simp [hk]
    rw [hdd]
    by_cases hk : k = nm
    · subst hk
      rw [if_pos rfl]
      unfold lastResolved
      rw [List.filter_cons_of_pos (by simp [hnm])]
      cases hfr : rest.filter (fun r' => decide (dictGet r'.attrs c = some k)) with
      | nil =>
        simp only [hfr, List.getLast?_singleton, List.getLast?_nil]
        simp [nearestId, hnd]
      | cons r' l' =>
        simp only [hfr, List.getLast?_cons_cons]
        cases hgl : (r' :: l').getLast? with
        | none => exact absurd hgl (by simp)
        | some rl => simp
    · rw [if_neg hk]
      unfold lastResolved
      rw [List.filter_cons_of_neg ?hneg]
      case hneg =>
        simp only [decide_eq_true_eq, hnm, Option.some.injEq]
        exact fun h => hk h.symm

/-- C7: with a (non-falsy) name column present on every row and a non-empty
graph, `nearest_node_and_name` returns a mapping in which every name is
bound to the nearest graph node of the last input row carrying that name —
later rows with a duplicate name silently overwrite the earlier binding,
with no correction or error — and the node each location is bound to
minimises the squared coordinate distance over all nodes of the graph. -/
theorem C7_last_wins_binding (g : NetGraph) (locs : List LocRow) (c : String)
    (anon : Bool) (fake : ℕ → String) (hg : g.nodes ≠ []) (hc : c ≠ "")
    (hattrs : ∀ r ∈ locs, (dictGet r.attrs c).isSome) :
    ∃ nb, nearestNodeAndName g locs (some c) anon fake = Except.ok (nb, locs) ∧
      (∀ k, dictGet nb k = lastResolved g c locs none k) ∧
      (∀ r ∈ locs, ∃ nd ∈ g.nodes, nearestId g r.x r.y = some nd.1 ∧
        ∀ m ∈ g.nodes, sqTo r.x r.y nd ≤ sqTo r.x r.y m) := by
  obtain ⟨out, hout, hlook⟩ := bindLoop_named g c hg hc locs hattrs 0 []
  refine ⟨out, ?_, fun k => hlook k, ?_⟩
  · simp [nearestNodeAndName, hout, Except.map]
  · intro r hr
    obtain ⟨nd, hnd, hmem, hmin⟩ := nearestEntry_spec g r.x r.y hg
    exact ⟨nd, hmem, by simp [nearestId, hnd], hmin⟩

/-- C7 witness: two locations named `A`; the returned binding for `A` is the
nearest node of the second (last) row. -/
theorem C7_last_wins_binding_witness :
    (gTwo.nodes ≠ [] ∧ "name" ≠ "" ∧
      ∀ r ∈ locsDup, (dictGet r.attrs "name").isSome) ∧
    (∃ nb, nearestNodeAndName gTwo locsDup (some "name") false (fun _ => "Z") =
        Except.ok (nb, locsDup) ∧
      (∀ k, dictGet nb k = lastResolved gTwo "name" locsDup none k) ∧
      (∀ r ∈ locsDup, ∃ nd ∈ gTwo.nodes, nearestId gTwo r.x r.y = some nd.1 ∧
        ∀ m ∈ gTwo.nodes, sqTo r.x r.y nd ≤ sqTo r.x r.y m)) :=
  ⟨⟨by decide, by decide, by decide⟩,
   C7_last_wins_binding gTwo locsDup "name" false (fun _ => "Z") (by decide) (by decide)
     (by decide)⟩
